import Mathlib

/-!
Verification of a toy bytecode machine together with its assembler and
Micro-C compiler, shallowly embedded from the C++ source (emulator.cpp).

Modelling conventions:
* `uint8_t` / `uint16_t` values are `Nat`, with `% 256` / `% 65536`
  written out exactly where the C++ arithmetic can overflow.
* The 64 KiB memory and the 256-byte stack are total functions
  `Nat → Nat`; the vectors have fixed sizes `memSize` / `stackSize`.
* Console output (`cout` / `cerr` lines) is modelled by a list of
  events `Ev`; `cin` is modelled by an `input : List Nat` field that
  the READ_CHAR syscall consumes.
* `std::istringstream` token extraction is modelled by pre-tokenizing a
  line into its whitespace-separated tokens.  A failed extraction into
  a freshly constructed `std::string` leaves it `""`; a failed
  extraction into a string that already holds a token leaves that token
  unchanged (the sentry fails before the string is erased).
* `s.back()` on an empty `std::string` is undefined behaviour; it is
  modelled by `strBack : String → Option Char` returning `none`, and
  the compiler, which can reach such a call, returns `Option` with
  `none` meaning that undefined behaviour was reached.
-/

set_option maxRecDepth 16384

/-- Head character of a string, `none` when empty (models `s[0]` guarded use). -/
def strHead (s : String) : Option Char := s.data.head?

/-- Last character of a string; `none` models the undefined `s.back()` on `""`. -/
def strBack (s : String) : Option Char := s.data.getLast?

/-- Model of `s.pop_back()` (drop the last character). -/
def strPopBack (s : String) : String := ⟨s.data.dropLast⟩

/-- Whitespace as recognized by `operator>>` token extraction. -/
def isWs (c : Char) : Bool := c = ' ' || c = '\t' || c = '\n' || c = '\r'

/-- Tokenizer worker: `cur` holds the reversed characters of the token in progress. -/
def tokenizeAux : List Char → List Char → List String
  | [], cur => if cur = [] then [] else [⟨cur.reverse⟩]
  | c :: cs, cur =>
    if isWs c then
      if cur = [] then tokenizeAux cs []
      else ⟨cur.reverse⟩ :: tokenizeAux cs []
    else tokenizeAux cs (c :: cur)

/-- Split a source line into its whitespace-separated tokens, as the
repeated `ss >> token` extractions of the C++ code observe it. -/
def tokenize (s : String) : List String := tokenizeAux s.data []

/-- Longest digit prefix of a character list (what `stoi` consumes). -/
def leadingDigits : List Char → List Char
  | [] => []
  | c :: cs => if c.isDigit then c :: leadingDigits cs else []

/-- Numeric value of a digit list. -/
def digitsToNat (l : List Char) : Nat := l.foldl (fun a c => a * 10 + (c.toNat - 48)) 0

/-- Model of `std::stoi(s)` (base 10): optional sign, then at least one
digit; trailing non-digit characters are ignored.  `none` models the
thrown `invalid_argument` (no digits) or `out_of_range` (outside the
`int` range) exceptions, both of which the callers catch. -/
def stoiOpt (s : String) : Option Int :=
  let sign : Int := match s.data with
    | '-' :: _ => -1
    | _ => 1
  let rest : List Char := match s.data with
    | '-' :: cs => cs
    | '+' :: cs => cs
    | cs => cs
  let ds := leadingDigits rest
  if ds = [] then none
  else
    let v : Int := sign * (digitsToNat ds : Int)
    if v > 2147483647 ∨ v < -2147483648 then none else some v

/-- Model of `static_cast<uint8_t>` applied to an `int`. -/
def u8 (v : Int) : Nat := (v % 256).toNat

/-- The opcode table `opcodeMap` (mnemonic to numeric code). -/
def opcodeOf (s : String) : Option Nat :=
  if s = "PUSH_B" then some 0x01
  else if s = "POP_B" then some 0x02
  else if s = "LOAD_A" then some 0x03
  else if s = "LOAD_B" then some 0x04
  else if s = "STORE_A" then some 0x05
  else if s = "ADD_A_B" then some 0x10
  else if s = "SUB_A_B" then some 0x11
  else if s = "JMP" then some 0x20
  else if s = "HALT" then some 0xFF
  else if s = "SYSCALL" then some 0x30
  else none

/-- The four operand-bearing mnemonics, as tested literally in both
assembler passes. -/
def hasOperandTok (s : String) : Bool :=
  s = "LOAD_A" || s = "LOAD_B" || s = "JMP" || s = "STORE_A"

/-- Association-list lookup, modelling `map::count` / `map::at`. -/
def lookupA : List (String × Nat) → String → Option Nat
  | [], _ => none
  | (k, v) :: r, s => if k = s then some v else lookupA r s

/-- Association-list insert-or-overwrite, modelling `map[k] = v`. -/
def mapInsert (k : String) (v : Nat) : List (String × Nat) → List (String × Nat)
  | [] => [(k, v)]
  | (k2, v2) :: r => if k2 = k then (k, v) :: r else (k2, v2) :: mapInsert k v r

/-- Memory size of the machine (`memory.resize(65536, 0)`). -/
def memSize : Nat := 65536

/-- Stack size of the machine (`stack.resize(256, 0)`). -/
def stackSize : Nat := 256

/-- Machine state of the `CPU` class.  Registers are `uint8_t`, `pc` and
`sp` are `uint16_t`; `memory` and `stack` are byte vectors modelled as
total functions, and `input` models the `cin` character stream consumed
by READ_CHAR. -/
structure Cpu where
  reg_A : Nat := 0
  reg_B : Nat := 0
  pc : Nat := 0
  sp : Nat := 0
  privileged : Bool := false
  memory : Nat → Nat := fun _ => 0
  stack : Nat → Nat := fun _ => 0
  input : List Nat := []

/-- The machine in its freshly constructed state. -/
def initCpu : Cpu := {}

/-- One console line produced by the engine (`cout` / `cerr`). -/
inductive Ev where
  | pcTrace (addr : Nat)
  | loadA (v : Nat)
  | loadB (v : Nat)
  | storeA (addr : Nat)
  | addAB (a : Nat)
  | subAB (a : Nat)
  | pushB
  | popB
  | jmp (addr : Nat)
  | syscall
  | halt
  | printChar (c : Nat)
  | errPcOutOfBounds
  | errUnknownInstr (i : Nat)
  | errUnknownSyscall (n : Nat)
  | errProgramTooLarge (addr : Nat)
  deriving DecidableEq

/-- Result of `CPU::step`: the continuation signal, the new machine
state, and the console lines printed during the step. -/
structure StepRes where
  cont : Bool
  cpu : Cpu
  out : List Ev

/-- Dispatch part of `CPU::syscallHandler`: the switch on the syscall
number in register A.  PRINT_CHAR emits B; READ_CHAR reads one
character from the input stream into B (a failed read leaves B
unchanged); any other number reports an unknown syscall and changes no
register. -/
def syscallBody (c : Cpu) : Cpu × List Ev :=
  if c.reg_A = 1 then (c, [Ev.printChar c.reg_B])
  else if c.reg_A = 2 then
    match c.input with
    | ch :: rest => ({ c with reg_B := ch % 256, input := rest }, [])
    | [] => (c, [])
  else (c, [Ev.errUnknownSyscall c.reg_A])

/-- Model of `CPU::syscallHandler`: sets the privilege flag on entry,
dispatches, and clears the flag before returning. -/
def syscallHandler (c : Cpu) : Cpu × List Ev :=
  let entered := { c with privileged := true }
  let r := syscallBody entered
  ({ r.1 with privileged := false }, r.2)

/-- Model of `CPU::step`: executes one instruction at `pc`, returning
the continuation signal (`false` on HALT, unknown instruction, or PC out
of bounds), the new state, and the printed lines. -/
def step (c : Cpu) : StepRes :=
  if c.pc ≥ memSize then ⟨false, c, [Ev.errPcOutOfBounds]⟩
  else
    let instruction := c.memory c.pc
    let pcEv := Ev.pcTrace c.pc
    let c1 : Cpu := { c with pc := (c.pc + 1) % memSize }
    if instruction = 0x03 then
      let value := c1.memory c1.pc
      ⟨true, { c1 with reg_A := value, pc := (c1.pc + 1) % memSize }, [pcEv, Ev.loadA value]⟩
    else if instruction = 0x04 then
      let value := c1.memory c1.pc
      ⟨true, { c1 with reg_B := value, pc := (c1.pc + 1) % memSize }, [pcEv, Ev.loadB value]⟩
    else if instruction = 0x05 then
      let address := c1.memory c1.pc
      let c2 : Cpu := { c1 with pc := (c1.pc + 1) % memSize }
      ⟨true, { c2 with memory := fun a => if a = address then c2.reg_A else c2.memory a },
        [pcEv, Ev.storeA address]⟩
    else if instruction = 0x10 then
      ⟨true, { c1 with reg_A := (c1.reg_A + c1.reg_B) % 256 },
        [pcEv, Ev.addAB ((c1.reg_A + c1.reg_B) % 256)]⟩
    else if instruction = 0x11 then
      ⟨true, { c1 with reg_A := (c1.reg_A + 256 - c1.reg_B % 256) % 256 },
        [pcEv, Ev.subAB ((c1.reg_A + 256 - c1.reg_B % 256) % 256)]⟩
    else if instruction = 0x01 then
      if c1.sp < stackSize then
        ⟨true, { c1 with sp := c1.sp + 1, stack := fun k => if k = c1.sp then c1.reg_B else c1.stack k },
          [pcEv, Ev.pushB]⟩
      else ⟨true, c1, [pcEv]⟩
    else if instruction = 0x02 then
      if c1.sp > 0 then
        ⟨true, { c1 with sp := c1.sp - 1, reg_B := c1.stack (c1.sp - 1) }, [pcEv, Ev.popB]⟩
      else ⟨true, c1, [pcEv]⟩
    else if instruction = 0x20 then
      let address := c1.memory c1.pc
      ⟨true, { c1 with pc := address }, [pcEv, Ev.jmp address]⟩
    else if instruction = 0x30 then
      ⟨true, (syscallHandler c1).1, [pcEv, Ev.syscall] ++ (syscallHandler c1).2⟩
    else if instruction = 0xFF then
      ⟨false, c1, [pcEv, Ev.halt]⟩
    else
      ⟨false, c1, [pcEv, Ev.errUnknownInstr instruction]⟩

/-- Model of `CPU::loadProgram`: copies the program into memory at the
start address, or reports an error and copies nothing when it does not
fit. -/
def loadProgram (c : Cpu) (program : List Nat) (startAddress : Nat) : Cpu × List Ev :=
  if startAddress + program.length > memSize then
    (c, [Ev.errProgramTooLarge startAddress])
  else
    ({ c with memory := fun a =>
        if startAddress ≤ a ∧ a < startAddress + program.length then
          program.getD (a - startAddress) 0
        else c.memory a }, [])

/-- Iterated `step`, keeping only the machine state (the `run` loop). -/
def runN : Nat → Cpu → Cpu
  | 0, c => c
  | n + 1, c => runN n (step c).cpu

/-- Pass 1 of `assemble`, one line: records a `label:` binding at the
current address, then advances the address by the line's emitted size
(1 byte per recognized mnemonic, plus 1 for an operand-bearing one).
Comment lines (first token starting with a semicolon) and unrecognized
tokens are inert.  A failed re-read after a label leaves the token
unchanged (`rest.headD t0`). -/
def pass1Line (lt : List String) (st : List (String × Nat) × Nat) : List (String × Nat) × Nat :=
  match lt with
  | [] => st
  | t0 :: rest =>
    if strHead t0 = some ';' then st
    else
      let labels := st.1
      let addr := st.2
      let labels2 := if strBack t0 = some ':' then mapInsert (strPopBack t0) addr labels else labels
      let tok := if strBack t0 = some ':' then rest.headD t0 else t0
      if (opcodeOf tok).isSome then
        let a1 := (addr + 1) % 65536
        (labels2, if hasOperandTok tok then (a1 + 1) % 65536 else a1)
      else (labels2, addr)

/-- Pass 1 of `assemble` over all (tokenized) lines, starting at the
user program base address 0. -/
def asmLabels (srcLines : List String) : List (String × Nat) :=
  ((srcLines.map tokenize).foldl (fun st lt => pass1Line lt st) ([], 0)).1

/-- Pass 2 of `assemble`, one line: emits the opcode byte of a
recognized mnemonic and, for an operand-bearing one, the operand byte,
resolved through the label table or `stoi`.  `none` models the abort
(`return {}`) on an operand that is neither. -/
def pass2Line (labels : List (String × Nat)) (lt : List String) : Option (List Nat) :=
  match lt with
  | [] => some []
  | t0 :: rest =>
    if strHead t0 = some ';' then some []
    else
      let tok := if strBack t0 = some ':' then rest.headD t0 else t0
      let rest2 := if strBack t0 = some ':' then rest.tail else rest
      match opcodeOf tok with
      | none => some []
      | some op =>
        if hasOperandTok tok then
          let operand := rest2.headD ""
          match lookupA labels operand with
          | some a => some [op, a % 256]
          | none =>
            match stoiOpt operand with
            | some v => some [op, u8 v]
            | none => none
        else some [op]

/-- Pass 2 over all lines; `none` as soon as one line aborts. -/
def pass2Lines (labels : List (String × Nat)) : List (List String) → Option (List Nat)
  | [] => some []
  | lt :: ls =>
    match pass2Line labels lt with
    | none => none
    | some bs =>
      match pass2Lines labels ls with
      | none => none
      | some rest => some (bs ++ rest)

/-- Model of `assemble` (over the list of source lines read from the
file): two passes; an aborted translation yields the empty sequence. -/
def assemble (srcLines : List String) : List Nat :=
  match pass2Lines (asmLabels srcLines) (srcLines.map tokenize) with
  | none => []
  | some bs => bs

/-- Result of compiling one Micro-C line: undefined behaviour reached
(`ub`, a `.back()` call on an empty string), a compile error (`err`,
the C++ function returns the empty vector), or the emitted bytes
together with the updated variable table and next free address. -/
inductive CResult where
  | ub : CResult
  | err : CResult
  | ok (bytes : List Nat) (vars : List (String × Nat)) (next : Nat) : CResult

/-- Model of one iteration of the `compile` line loop.  Mirrors the C++
order of checks exactly: comment skip, declaration (`int name;`,
duplicate check after semicolon strip), otherwise assignment
(`name = operand [op operand2] ;`) with the simple branch taken when the
operator token is absent or ends in a semicolon.  Note that the C++
code evaluates `op.back()` inside that branch even when `op` is empty,
which is undefined behaviour, modelled by `CResult.ub`. -/
def compileLine (vars : List (String × Nat)) (next : Nat) (lt : List String) : CResult :=
  match lt with
  | [] => .ok [] vars next
  | t0 :: rest =>
    if t0.data.length ≥ 2 ∧ strHead t0 = some '/' ∧ t0.data.getD 1 ' ' = '/' then .ok [] vars next
    else if t0 = "int" then
      let varName := rest.headD ""
      match strBack varName with
      | none => .ub
      | some c =>
        let varName2 := if c = ';' then strPopBack varName else varName
        if (lookupA vars varName2).isSome then .err
        else .ok [] (mapInsert varName2 next vars) ((next + 1) % 256)
    else
      let varName := t0
      let equals := rest.getD 0 ""
      let val1 := rest.getD 1 ""
      if equals ≠ "=" then .err
      else
        match lookupA vars varName with
        | none => .err
        | some dst =>
          let op := rest.getD 2 ""
          if op = "" ∨ strBack op = some ';' then
            match strBack op with
            | none => .ub
            | some _ =>
              match lookupA vars val1 with
              | some a1 => .ok [0x03, a1, 0x05, dst] vars next
              | none =>
                match stoiOpt val1 with
                | some v => .ok [0x03, u8 v, 0x05, dst] vars next
                | none => .err
          else
            let val2 := rest.getD 3 ""
            match strBack val2 with
            | none => .ub
            | some c2 =>
              let val2p := if c2 = ';' then strPopBack val2 else val2
              let part1 : Option (List Nat) :=
                match lookupA vars val1 with
                | some a1 => some [0x03, a1]
                | none =>
                  match stoiOpt val1 with
                  | some v => some [0x03, u8 v]
                  | none => none
              match part1 with
              | none => .err
              | some p1 =>
                let part2 : Option (List Nat) :=
                  match lookupA vars val2p with
                  | some a2 => some [0x04, a2]
                  | none =>
                    match stoiOpt val2p with
                    | some v => some [0x04, u8 v]
                    | none => none
                match part2 with
                | none => .err
                | some p2 =>
                  if op = "+" then .ok (p1 ++ p2 ++ [0x10, 0x05, dst]) vars next
                  else if op = "-" then .ok (p1 ++ p2 ++ [0x11, 0x05, dst]) vars next
                  else .err

/-- The `compile` line loop with its accumulated output; the final HALT
byte is appended after the last line.  `none` = undefined behaviour
reached; `some []` = compile error (the C++ `return {}`). -/
def compileLinesGo : List String → List (String × Nat) → Nat → List Nat → Option (List Nat)
  | [], _, _, acc => some (acc ++ [0xFF])
  | l :: ls, vars, next, acc =>
    match compileLine vars next (tokenize l) with
    | .ub => none
    | .err => some []
    | .ok bs vars2 next2 => compileLinesGo ls vars2 next2 (acc ++ bs)

/-- Model of `compile` (over the source lines read from the file):
variable table starts empty, the first variable address is 0x10. -/
def compile (srcLines : List String) : Option (List Nat) :=
  compileLinesGo srcLines [] 0x10 []

/-- The operand token of an assembler source line, when the line carries
one: after the optional label strip, a recognized operand-bearing
mnemonic makes the next token (or `""` when absent) the operand. -/
def lineOperandToken (lt : List String) : Option String :=
  match lt with
  | [] => none
  | t0 :: rest =>
    if strHead t0 = some ';' then none
    else
      let tok := if strBack t0 = some ':' then rest.headD t0 else t0
      let rest2 := if strBack t0 = some ':' then rest.tail else rest
      if (opcodeOf tok).isSome && hasOperandTok tok then some (rest2.headD "") else none

/-- An operand token that pass 2 cannot resolve: neither a known label
nor accepted by `stoi`. -/
def badToken (labels : List (String × Nat)) (t : String) : Bool :=
  (lookupA labels t).isNone && (stoiOpt t).isNone

/-- A line whose operand token pass 2 cannot resolve. -/
def lineBad (labels : List (String × Nat)) (lt : List String) : Bool :=
  match lineOperandToken lt with
  | some t => badToken labels t
  | none => false

/-- Some line of the source carries an unresolvable operand token. -/
def existsBadOperand (srcLines : List String) : Bool :=
  (srcLines.map tokenize).any (lineBad (asmLabels srcLines))

/-- Some line of the source carries an operand-bearing mnemonic. -/
def hasOperandLine (srcLines : List String) : Bool :=
  (srcLines.map tokenize).any (fun lt => (lineOperandToken lt).isSome)

/-- Bytecode of the push phase: LOAD_B v; PUSH_B for each value. -/
def pushCode : List Nat → List Nat
  | [] => []
  | v :: vs => 0x04 :: v :: 0x01 :: pushCode vs

/-- The stack-discipline test program: N LOAD_B/PUSH_B pairs followed by
N POP_B instructions. -/
def c6prog (vs : List Nat) : List Nat := pushCode vs ++ List.replicate vs.length 0x02

/-- Memory containing a program image at address 0 and zeroes elsewhere. -/
def progMem (p : List Nat) : Nat → Nat := fun a => p.getD a 0

/-- Starting state for the stack-discipline program: PC at the program
base, SP = 0, arbitrary registers and stack contents. -/
def c6start (vs : List Nat) (a0 b0 : Nat) (st0 : Nat → Nat) : Cpu :=
  ⟨a0, b0, 0, 0, false, progMem (c6prog vs), st0, []⟩

/-- Stack contents after the first `j` pushes of the values `vs`. -/
def pushedStack (vs : List Nat) (j : Nat) (st0 : Nat → Nat) : Nat → Nat :=
  fun k => if k < j then vs.getD k 0 else st0 k

/-- A sequence of 257 values: 256 zeroes and then a one. -/
def vs257 : List Nat := List.replicate 256 0 ++ [1]
/-- Characterization of one step at a LOAD_B opcode (in bounds): B receives the operand byte and PC advances by two. -/
theorem step_loadB (c : Cpu) (h1 : c.pc + 2 < 65536) (h2 : c.memory c.pc = 0x04) :
    step c = ⟨true, ⟨c.reg_A, c.memory (c.pc + 1), c.pc + 2, c.sp, c.privileged, c.memory, c.stack, c.input⟩, [Ev.pcTrace c.pc, Ev.loadB (c.memory (c.pc + 1))]⟩ := by
  have hm : ¬ (c.pc ≥ memSize) := by simp [memSize]; omega
  have e1 : (c.pc + 1) % memSize = c.pc + 1 := Nat.mod_eq_of_lt (by simp [memSize]; omega)
  unfold step
  rw [if_neg hm]
  simp only [h2]
  norm_num [e1]
  simp [memSize]
  omega

/-- Characterization of one step at a PUSH_B opcode with room on the stack: B is written at SP and SP increments. -/
theorem step_pushB (c : Cpu) (h1 : c.pc + 1 < 65536) (h2 : c.memory c.pc = 0x01)
    (h3 : c.sp < 256) :
    step c = ⟨true, ⟨c.reg_A, c.reg_B, c.pc + 1, c.sp + 1, c.privileged, c.memory, fun k => if k = c.sp then c.reg_B else c.stack k, c.input⟩, [Ev.pcTrace c.pc, Ev.pushB]⟩ := by
  have hm : ¬ (c.pc ≥ memSize) := by simp [memSize]; omega
  have e1 : (c.pc + 1) % memSize = c.pc + 1 := Nat.mod_eq_of_lt (by simp [memSize]; omega)
  have hs : c.sp < stackSize := h3
  unfold step
  rw [if_neg hm]
  simp only [h2]
  norm_num [e1, hs]

/-- Characterization of one step at a PUSH_B opcode with the stack at capacity: only PC advances. -/
theorem step_pushB_full (c : Cpu) (h1 : c.pc + 1 < 65536) (h2 : c.memory c.pc = 0x01)
    (h3 : ¬ (c.sp < 256)) :
    step c = ⟨true, ⟨c.reg_A, c.reg_B, c.pc + 1, c.sp, c.privileged, c.memory, c.stack, c.input⟩, [Ev.pcTrace c.pc]⟩ := by
  have hm : ¬ (c.pc ≥ memSize) := by simp [memSize]; omega
  have e1 : (c.pc + 1) % memSize = c.pc + 1 := Nat.mod_eq_of_lt (by simp [memSize]; omega)
  have hs : ¬ (c.sp < stackSize) := h3
  unfold step
  rw [if_neg hm]
  simp only [h2]
  norm_num [e1, hs]

/-- Characterization of one step at a POP_B opcode with a non-empty stack: SP decrements and B receives the popped byte. -/
theorem step_popB (c : Cpu) (h1 : c.pc + 1 < 65536) (h2 : c.memory c.pc = 0x02)
    (h3 : 0 < c.sp) :
    step c = ⟨true, ⟨c.reg_A, c.stack (c.sp - 1), c.pc + 1, c.sp - 1, c.privileged, c.memory, c.stack, c.input⟩, [Ev.pcTrace c.pc, Ev.popB]⟩ := by
  have hm : ¬ (c.pc ≥ memSize) := by simp [memSize]; omega
  have e1 : (c.pc + 1) % memSize = c.pc + 1 := Nat.mod_eq_of_lt (by simp [memSize]; omega)
  unfold step
  rw [if_neg hm]
  simp only [h2]
  norm_num [e1, h3]

/-- Characterization of one step at a POP_B opcode with SP = 0: only PC advances. -/
theorem step_popB_empty (c : Cpu) (h1 : c.pc + 1 < 65536) (h2 : c.memory c.pc = 0x02)
    (h3 : c.sp = 0) :
    step c = ⟨true, ⟨c.reg_A, c.reg_B, c.pc + 1, c.sp, c.privileged, c.memory, c.stack, c.input⟩, [Ev.pcTrace c.pc]⟩ := by
  have hm : ¬ (c.pc ≥ memSize) := by simp [memSize]; omega
  have e1 : (c.pc + 1) % memSize = c.pc + 1 := Nat.mod_eq_of_lt (by simp [memSize]; omega)
  unfold step
  rw [if_neg hm]
  simp only [h2]
  norm_num [e1, h3]

/-- Unfolding `runN` from the right. -/
theorem runN_succ_right (n : Nat) : ∀ c, runN (n + 1) c = (step (runN n c)).cpu := by
  induction n with
  | zero => intro c; rfl
  | succ n ih =>
    intro c
    have h1 : runN (n + 1 + 1) c = runN (n + 1) (step c).cpu := rfl
    rw [h1, ih, show runN (n + 1) c = runN n (step c).cpu from rfl]

/-- Each pushed value contributes three program bytes. -/
theorem pushCode_length (vs : List Nat) : (pushCode vs).length = 3 * vs.length := by
  induction vs with
  | nil => rfl
  | cons v vs ih => simp [pushCode, ih]; omega

/-- Byte layout of the push phase: LOAD_B opcode, value, PUSH_B opcode. -/
theorem pushCode_getD (vs : List Nat) (j : Nat) (hj : j < vs.length) :
    (pushCode vs).getD (3 * j) 0 = 0x04 ∧
    (pushCode vs).getD (3 * j + 1) 0 = vs.getD j 0 ∧
    (pushCode vs).getD (3 * j + 2) 0 = 0x01 := by
  induction vs generalizing j with
  | nil => simp at hj
  | cons v vs ih =>
    cases j with
    | zero => simp [pushCode]
    | succ j =>
      have hj2 : j < vs.length := by simp at hj; omega
      obtain ⟨g1, g2, g3⟩ := ih j hj2
      have hsplit : pushCode (v :: vs) = [0x04, v, 0x01] ++ pushCode vs := rfl
      refine ⟨?_, ?_, ?_⟩ <;>
        rw [hsplit, List.getD_append_right _ _ _ _ (by simp only [List.length_cons, List.length_nil]; omega)] <;> simp only [List.length_cons, List.length_nil]
      · simpa [show 3 * (j + 1) - 3 = 3 * j by omega] using g1
      · simpa [show 3 * (j + 1) + 1 - 3 = 3 * j + 1 by omega] using g2
      · simpa [show 3 * (j + 1) + 2 - 3 = 3 * j + 2 by omega] using g3

/-- Byte layout of the stack test program in memory, push part. -/
theorem c6prog_getD_push (vs : List Nat) (j : Nat) (hj : j < vs.length) :
    progMem (c6prog vs) (3 * j) = 0x04 ∧
    progMem (c6prog vs) (3 * j + 1) = vs.getD j 0 ∧
    progMem (c6prog vs) (3 * j + 2) = 0x01 := by
  obtain ⟨g1, g2, g3⟩ := pushCode_getD vs j hj
  have hl : (pushCode vs).length = 3 * vs.length := pushCode_length vs
  refine ⟨?_, ?_, ?_⟩ <;> simp only [progMem, c6prog] <;>
    rw [List.getD_append _ _ _ _ (by omega)] <;> assumption

/-- Reading inside a replicated list yields the replicated element. -/
theorem replicate_getD (n m a d : Nat) (h : m < n) : (List.replicate n a).getD m d = a := by
  induction n generalizing m with
  | zero => omega
  | succ n ih =>
    cases m with
    | zero => simp [List.replicate]
    | succ m => simpa [List.replicate] using ih m (by omega)

/-- Byte layout of the stack test program in memory, pop part. -/
theorem c6prog_getD_pop (vs : List Nat) (i : Nat) (hi : i < vs.length) :
    progMem (c6prog vs) (3 * vs.length + i) = 0x02 := by
  have hl : (pushCode vs).length = 3 * vs.length := pushCode_length vs
  simp only [progMem, c6prog]
  rw [List.getD_append_right _ _ _ _ (by omega), hl,
    show 3 * vs.length + i - 3 * vs.length = i by omega]
  exact replicate_getD _ _ _ _ hi

/-- Writing the next value at the top extends the pushed-stack contents by one. -/
theorem pushedStack_succ (vs : List Nat) (j : Nat) (st0 : Nat → Nat) :
    (fun k => if k = j then vs.getD j 0 else pushedStack vs j st0 k) = pushedStack vs (j + 1) st0 := by
  funext k
  simp only [pushedStack]
  rcases Nat.lt_trichotomy k j with h | h | h
  · rw [if_neg (by omega), if_pos h, if_pos (by omega)]
  · subst h; simp
  · rw [if_neg (by omega), if_neg (by omega), if_neg (by omega)]

/-- State after the first `j` LOAD_B/PUSH_B pairs of the stack test program: PC at `3 * j`, SP = `j`, the first `j` values on the stack, and the last loaded value in B. -/
theorem c6_push_phase (vs : List Nat) (a0 b0 : Nat) (st0 : Nat → Nat) :
    ∀ j, j ≤ vs.length → j ≤ 256 →
      runN (2 * j) (c6start vs a0 b0 st0) =
        ⟨a0, if j = 0 then b0 else vs.getD (j - 1) 0, 3 * j, j, false, progMem (c6prog vs), pushedStack vs j st0, []⟩ := by
  intro j
  induction j with
  | zero =>
    intro _ _
    have hst : pushedStack vs 0 st0 = st0 := by
      funext k; simp [pushedStack]
    show c6start vs a0 b0 st0 = _
    rw [hst]
    rfl
  | succ j ih =>
    intro hj1 hj2
    have hjlt : j < vs.length := by omega
    obtain ⟨g1, g2, g3⟩ := c6prog_getD_push vs j hjlt
    have hIH := ih (by omega) (by omega)
    have e2 : 2 * (j + 1) = 2 * j + 1 + 1 := by ring
    rw [e2, runN_succ_right, runN_succ_right, hIH]
    have s1 := step_loadB ⟨a0, if j = 0 then b0 else vs.getD (j - 1) 0, 3 * j, j, false, progMem (c6prog vs), pushedStack vs j st0, []⟩
      (by show 3 * j + 2 < 65536; omega)
      (by show progMem (c6prog vs) (3 * j) = 0x04; exact g1)
    rw [s1]
    dsimp only
    have s2 := step_pushB ⟨a0, progMem (c6prog vs) (3 * j + 1), 3 * j + 2, j, false, progMem (c6prog vs), pushedStack vs j st0, []⟩
      (by show 3 * j + 2 + 1 < 65536; omega)
      (by show progMem (c6prog vs) (3 * j + 2) = 0x01; exact g3)
      (by show j < 256; omega)
    rw [s2]
    dsimp only
    rw [g2, pushedStack_succ, show 3 * j + 2 + 1 = 3 * (j + 1) from by ring]
    simp

/-- State after all pushes and `i` pops of the stack test program: SP has come back down to `length - i` and B holds the value popped last. -/
theorem c6_pop_phase (vs : List Nat) (a0 b0 : Nat) (st0 : Nat → Nat) (hlen : vs.length ≤ 256) :
    ∀ i, i ≤ vs.length →
      runN (2 * vs.length + i) (c6start vs a0 b0 st0) =
        ⟨a0, if i = 0 then (if vs.length = 0 then b0 else vs.getD (vs.length - 1) 0) else vs.getD (vs.length - i) 0, 3 * vs.length + i, vs.length - i, false, progMem (c6prog vs), pushedStack vs vs.length st0, []⟩ := by
  intro i
  induction i with
  | zero =>
    intro _
    have h := c6_push_phase vs a0 b0 st0 vs.length le_rfl hlen
    simpa using h
  | succ i ih =>
    intro hi1
    have hilt : i < vs.length := by omega
    have hIH := ih (by omega)
    rw [show 2 * vs.length + (i + 1) = (2 * vs.length + i) + 1 from by ring, runN_succ_right, hIH]
    have gpop := c6prog_getD_pop vs i hilt
    have s1 := step_popB ⟨a0, if i = 0 then (if vs.length = 0 then b0 else vs.getD (vs.length - 1) 0) else vs.getD (vs.length - i) 0, 3 * vs.length + i, vs.length - i, false, progMem (c6prog vs), pushedStack vs vs.length st0, []⟩
      (by show 3 * vs.length + i + 1 < 65536; omega)
      (by show progMem (c6prog vs) (3 * vs.length + i) = 0x02; exact gpop)
      (by show 0 < vs.length - i; omega)
    rw [s1]
    dsimp only
    have hstk : pushedStack vs vs.length st0 (vs.length - i - 1) = vs.getD (vs.length - i - 1) 0 := by
      simp only [pushedStack]
      rw [if_pos (by omega)]
    rw [hstk, show vs.length - i - 1 = vs.length - (i + 1) from by omega]
    simp
    omega

/-- Pass 2 aborts on a line exactly when the line carries an operand token that is neither a known label nor accepted by `stoi`. -/
theorem pass2Line_none_iff (labels : List (String × Nat)) (lt : List String) :
    pass2Line labels lt = none ↔ lineBad labels lt = true := by
  cases lt with
  | nil => simp [pass2Line, lineBad, lineOperandToken]
  | cons t0 rest =>
    simp only [pass2Line, lineBad, lineOperandToken]
    by_cases hc : strHead t0 = some ';'
    · simp [hc]
    · simp only [if_neg hc]
      rcases hoc : opcodeOf (if strBack t0 = some ':' then rest.headD t0 else t0) with _ | op
      · simp [hoc]
      · simp only [hoc]
        by_cases hop : hasOperandTok (if strBack t0 = some ':' then rest.headD t0 else t0) = true
        · simp only [hop, Option.isSome_some, Bool.true_and, if_pos trivial]
          rcases hlk : lookupA labels ((if strBack t0 = some ':' then rest.tail else rest).headD "") with _ | a
          · rcases hst : stoiOpt ((if strBack t0 = some ':' then rest.tail else rest).headD "") with _ | v
            · rw [List.headD_eq_head?_getD] at hlk hst
              simp [hlk, hst, badToken]
            · rw [List.headD_eq_head?_getD] at hlk hst
              simp [hlk, hst, badToken]
          · rw [List.headD_eq_head?_getD] at hlk
            simp [hlk, badToken]
        · simp only [Bool.not_eq_true] at hop
          rw [List.headD_eq_head?_getD] at hop
          simp [hop]

/-- Pass 2 aborts exactly when some line makes it abort. -/
theorem pass2Lines_none_iff (labels : List (String × Nat)) (tls : List (List String)) :
    pass2Lines labels tls = none ↔ ∃ lt ∈ tls, pass2Line labels lt = none := by
  induction tls with
  | nil => simp [pass2Lines]
  | cons lt ls ih =>
    simp only [pass2Lines]
    rcases h : pass2Line labels lt with _ | bs
    · simp [h]
    · cases h2 : pass2Lines labels ls <;> simp [h, h2, ← ih]

/-- A line carrying an operand-bearing mnemonic emits a non-empty byte list when it does not abort. -/
theorem pass2Line_opline_ne_nil (labels : List (String × Nat)) (lt : List String)
    (h : (lineOperandToken lt).isSome = true) :
    ∀ bs, pass2Line labels lt = some bs → bs ≠ [] := by
  cases lt with
  | nil => simp [lineOperandToken] at h
  | cons t0 rest =>
    intro bs hbs
    simp only [lineOperandToken] at h
    simp only [pass2Line] at hbs
    by_cases hc : strHead t0 = some ';'
    · simp [hc] at h
    · simp only [if_neg hc] at h hbs
      rcases hoc : opcodeOf (if strBack t0 = some ':' then rest.headD t0 else t0) with _ | op <;>
        rw [hoc] at h hbs <;> dsimp only at hbs
      · simp at h
      · by_cases hop : hasOperandTok (if strBack t0 = some ':' then rest.headD t0 else t0) = true
        · rw [if_pos hop] at hbs
          rcases hlk : lookupA labels ((if strBack t0 = some ':' then rest.tail else rest).headD "") with _ | a <;>
            rw [hlk] at hbs
          · rcases hst : stoiOpt ((if strBack t0 = some ':' then rest.tail else rest).headD "") with _ | v <;>
              rw [hst] at hbs
            · simp at hbs
            · obtain rfl : [op, u8 v] = bs := by injection hbs
              simp
          · obtain rfl : [op, a % 256] = bs := by injection hbs
            simp
        · rw [List.headD_eq_head?_getD] at hop
          simp [hop] at h

/-- A successful pass 2 over a source with an operand-bearing line emits a non-empty byte list. -/
theorem pass2Lines_opline_ne_nil (labels : List (String × Nat)) :
    ∀ (tls : List (List String)) (bs : List Nat), pass2Lines labels tls = some bs →
      (∃ lt ∈ tls, (lineOperandToken lt).isSome = true) → bs ≠ [] := by
  intro tls
  induction tls with
  | nil => simp
  | cons lt ls ih =>
    intro bs h hex
    simp only [pass2Lines] at h
    rcases h1 : pass2Line labels lt with _ | bs1 <;> rw [h1] at h
    · simp at h
    · rcases h2 : pass2Lines labels ls with _ | rest <;> rw [h2] at h
      · simp at h
      · obtain rfl : bs1 ++ rest = bs := by injection h
        rcases hex with ⟨lt2, hmem, hop⟩
        rcases List.mem_cons.mp hmem with rfl | hmem2
        · have hne := pass2Line_opline_ne_nil labels lt2 hop bs1 h1
          simp [hne]
        · have hne := ih rest h2 ⟨lt2, hmem2, hop⟩
          simp [hne]

/-- Claim C1: compiling the Micro-C source `int a; int b; a = 3; b = a + 2;`
is claimed to yield bytecode that ends in HALT and leaves memory 0x10 = 3
and 0x11 = 5.  Evaluating the embedded `compile` at this source instead
reaches the undefined `op.back()` call on the empty operator token of the
line `a = 3;` (result `none`); moreover the code compiles the variable
operand `a` of `b = a + 2` to `LOAD_A 0x10`, loading the ADDRESS of `a`
as an immediate (the instruction set has no load-from-memory opcode), so
the executed result would be 0x10 + 2 = 18, not 5. -/
theorem claimC1_compile_ub : compile ["int a;", "int b;", "a = 3;", "b = a + 2;"] = none := by decide

/-- Claim C2 (amended): at a SYSCALL opcode with register A holding a
value other than 1 or 2, `step` reports the unknown-syscall condition
and leaves A and B unchanged, but returns `true` (execution continues),
not the stop signal `false` claimed by the spec; the privilege flag is
clear afterwards. -/
theorem claimC2_unknown_syscall_continues (c : Cpu) (hpc : c.pc < 65536)
    (hop : c.memory c.pc = 0x30) (h1 : c.reg_A ≠ 1) (h2 : c.reg_A ≠ 2) :
    (step c).cont = true ∧
    (step c).cpu.reg_A = c.reg_A ∧ (step c).cpu.reg_B = c.reg_B ∧
    (step c).out = [Ev.pcTrace c.pc, Ev.syscall, Ev.errUnknownSyscall c.reg_A] := by
  have hm : ¬ (c.pc ≥ memSize) := by simp [memSize]; omega
  unfold step
  rw [if_neg hm]
  simp only [hop]
  norm_num
  simp [syscallHandler, syscallBody, h1, h2]

/-- Claim C2, counterexample to the claim as stated: at a concrete state
with the SYSCALL opcode at PC and A = 7, `step` does not return the stop
signal `false`. -/
theorem claimC2_counterexample :
    (step ⟨7, 9, 0, 0, false, fun a => if a = 0 then 0x30 else 0, fun _ => 0, []⟩).cont ≠ false := by decide

/-- Claim C2, witness for the amended theorem at a concrete state. -/
theorem claimC2_witness :
    (step ⟨7, 9, 0, 0, false, fun a => if a = 0 then 0x30 else 0, fun _ => 0, []⟩).cont = true ∧
    (step ⟨7, 9, 0, 0, false, fun a => if a = 0 then 0x30 else 0, fun _ => 0, []⟩).cpu.reg_A = 7 :=
  ⟨(claimC2_unknown_syscall_continues _ (by decide) (by decide) (by decide) (by decide)).1,
   (claimC2_unknown_syscall_continues _ (by decide) (by decide) (by decide) (by decide)).2.1⟩

/-- Claim C3: when the program counter is at or beyond the 65536-byte
memory bound, `step` returns `false` without fetching an instruction or
mutating any machine state, printing only the PC-out-of-bounds
diagnostic, which is a distinct condition from the unknown-opcode
diagnostic. -/
theorem claimC3_pc_out_of_bounds (c : Cpu) (h : c.pc ≥ 65536) :
    (step c).cont = false ∧ (step c).cpu = c ∧ (step c).out = [Ev.errPcOutOfBounds] ∧
    (∀ i, (Ev.errPcOutOfBounds : Ev) ≠ Ev.errUnknownInstr i) := by
  have hm : c.pc ≥ memSize := h
  unfold step
  rw [if_pos hm]
  simp

/-- Claim C3, witness at a concrete state with PC = 70000. -/
theorem claimC3_witness :
    (step { initCpu with pc := 70000 }).cont = false ∧
    (step { initCpu with pc := 70000 }).cpu = { initCpu with pc := 70000 } :=
  ⟨(claimC3_pc_out_of_bounds _ (by decide)).1, (claimC3_pc_out_of_bounds _ (by decide)).2.1⟩

/-- Claim C4, counterexample to the claim as stated: the operand token
`12abc` begins with digits but has trailing non-digit characters, yet
`assemble` does NOT return the empty sequence for it: `stoi` parses the
leading digits and ignores the rest, so the line assembles to
`[0x03, 12]`. -/
theorem claimC4_counterexample :
    assemble ["LOAD_A 12abc"] = [0x03, 12] ∧ assemble ["LOAD_A 12abc"] ≠ [] := by decide

/-- Claim C4 (amended): for a source with at least one operand-bearing
mnemonic line, `assemble` returns the empty sequence exactly when some
operand token is neither a known label nor accepted by `stoi` (optional
sign followed by at least one digit, value within the `int` range;
trailing non-digit characters are ignored rather than rejected). -/
theorem claimC4_operand_abort_iff (srcLines : List String) (h : hasOperandLine srcLines = true) :
    assemble srcLines = [] ↔ existsBadOperand srcLines = true := by
  unfold assemble
  rcases h2 : pass2Lines (asmLabels srcLines) (srcLines.map tokenize) with _ | bs
  · constructor
    · intro _
      obtain ⟨lt, hm, hn⟩ := (pass2Lines_none_iff _ _).mp h2
      have hb := (pass2Line_none_iff _ lt).mp hn
      unfold existsBadOperand
      rw [List.any_eq_true]
      exact ⟨lt, hm, hb⟩
    · intro _
      rfl
  · have hbs : bs ≠ [] := by
      apply pass2Lines_opline_ne_nil _ _ bs h2
      unfold hasOperandLine at h
      rw [List.any_eq_true] at h
      exact h
    constructor
    · intro hfalse
      exact absurd hfalse hbs
    · intro hbad
      unfold existsBadOperand at hbad
      rw [List.any_eq_true] at hbad
      obtain ⟨lt, hm, hb⟩ := hbad
      have hn := (pass2Line_none_iff _ lt).mpr hb
      have hnone := (pass2Lines_none_iff _ _).mpr ⟨lt, hm, hn⟩
      rw [h2] at hnone
      exact absurd hnone (by simp)

/-- Claim C4, witness for the amended theorem at a concrete source. -/
theorem claimC4_witness : assemble ["LOAD_A 5"] = [] ↔ existsBadOperand ["LOAD_A 5"] = true :=
  claimC4_operand_abort_iff ["LOAD_A 5"] (by decide)

/-- Claim C5: `loadProgram` copies the bytes to the cells from the base
address on when they fit (leaving all other cells untouched), and when
`base + length` exceeds 65536 it reports the capacity error and leaves
every memory cell unchanged. -/
theorem claimC5_loadProgram (c : Cpu) (program : List Nat) (base : Nat) :
    (base + program.length ≤ 65536 →
      (∀ i, i < program.length → (loadProgram c program base).1.memory (base + i) = program.getD i 0) ∧
      (∀ a, a < base ∨ base + program.length ≤ a → (loadProgram c program base).1.memory a = c.memory a) ∧
      (loadProgram c program base).2 = []) ∧
    (base + program.length > 65536 →
      (loadProgram c program base).1 = c ∧
      (loadProgram c program base).2 = [Ev.errProgramTooLarge base]) := by
  constructor
  · intro h
    have hc : ¬ (base + program.length > memSize) := by simp [memSize]; omega
    unfold loadProgram
    rw [if_neg hc]
    refine ⟨?_, ?_, rfl⟩
    · intro i hi
      simp only
      rw [if_pos ⟨Nat.le_add_right _ _, by omega⟩]
      congr 1
      omega
    · intro a ha
      simp only
      rw [if_neg (by omega)]
  · intro h
    have hc : base + program.length > memSize := by simp [memSize]; omega
    unfold loadProgram
    rw [if_pos hc]
    exact ⟨rfl, rfl⟩

/-- Claim C5, witness: a two-byte program lands at its cells, and a
program ending beyond address 65536 leaves the machine unchanged. -/
theorem claimC5_witness :
    (loadProgram initCpu [7, 9] 16).1.memory (16 + 1) = [7, 9].getD 1 0 ∧
    (loadProgram initCpu [1] 65536).1 = initCpu :=
  ⟨((claimC5_loadProgram initCpu [7, 9] 16).1 (by norm_num)).1 1 (by norm_num),
   ((claimC5_loadProgram initCpu [1] 65536).2 (by norm_num)).1⟩

/-- Claim C6 (amended with the bound `N ≤ 256` that the stack capacity
forces): for at most 256 byte values pushed from SP = 0, the N POP_B
instructions return the values to B in last-in-first-out order; a
PUSH_B at SP = 256 leaves SP, B, the stack and memory unchanged; a
POP_B at SP = 0 leaves SP, B, the stack and memory unchanged. -/
theorem claimC6_stack_lifo :
    (∀ (vs : List Nat) (a0 b0 : Nat) (st0 : Nat → Nat), vs.length ≤ 256 →
      ∀ i, i < vs.length →
        (runN (2 * vs.length + (i + 1)) (c6start vs a0 b0 st0)).reg_B = vs.getD (vs.length - 1 - i) 0) ∧
    (∀ c : Cpu, c.pc + 1 < 65536 → c.memory c.pc = 0x01 → c.sp = 256 →
      (step c).cpu.sp = c.sp ∧ (step c).cpu.reg_B = c.reg_B ∧
      (step c).cpu.stack = c.stack ∧ (step c).cpu.memory = c.memory) ∧
    (∀ c : Cpu, c.pc + 1 < 65536 → c.memory c.pc = 0x02 → c.sp = 0 →
      (step c).cpu.sp = c.sp ∧ (step c).cpu.reg_B = c.reg_B ∧
      (step c).cpu.stack = c.stack ∧ (step c).cpu.memory = c.memory) := by
  refine ⟨?_, ?_, ?_⟩
  · intro vs a0 b0 st0 hlen i hi
    have h := c6_pop_phase vs a0 b0 st0 hlen (i + 1) (by omega)
    rw [h]
    simp [show vs.length - (i + 1) = vs.length - 1 - i from by omega]
  · intro c h1 h2 h3
    rw [step_pushB_full c h1 h2 (by omega)]
    exact ⟨rfl, rfl, rfl, rfl⟩
  · intro c h1 h2 h3
    rw [step_popB_empty c h1 h2 h3]
    exact ⟨rfl, rfl, rfl, rfl⟩

/-- Claim C6, counterexample to the unbounded claim: with N = 257 values
(256 zeroes, then a one) the 257th push is silently dropped at the full
stack, so the first pop returns 0 although the last value placed in B
was 1 — LIFO order fails for N beyond the stack capacity. -/
theorem claimC6_counterexample :
    (runN (2 * vs257.length + 1) (c6start vs257 0 0 (fun _ => 0))).reg_B = 0 ∧
    vs257.getD (vs257.length - 1 - 0) 0 = 1 := by
  have hl : vs257.length = 257 := by simp [vs257]
  constructor
  · have e515 : 2 * vs257.length + 1 = 512 + 1 + 1 + 1 := by rw [hl]
    rw [e515, runN_succ_right, runN_succ_right, runN_succ_right]
    have hpush := c6_push_phase vs257 0 0 (fun _ => 0) 256 (by rw [hl]; omega) (by omega)
    rw [show (512 : Nat) = 2 * 256 from rfl, hpush]
    obtain ⟨g1, g2, g3⟩ := c6prog_getD_push vs257 256 (by rw [hl]; omega)
    have gpop := c6prog_getD_pop vs257 0 (by rw [hl]; omega)
    have s1 := step_loadB ⟨0, if (256 : Nat) = 0 then 0 else vs257.getD (256 - 1) 0, 3 * 256, 256, false, progMem (c6prog vs257), pushedStack vs257 256 (fun _ => 0), []⟩
      (by norm_num) (by exact g1)
    rw [s1]
    dsimp only
    have s2 := step_pushB_full ⟨0, progMem (c6prog vs257) (3 * 256 + 1), 3 * 256 + 2, 256, false, progMem (c6prog vs257), pushedStack vs257 256 (fun _ => 0), []⟩
      (by norm_num) (by exact g3) (by norm_num)
    rw [s2]
    dsimp only
    have s3 := step_popB ⟨0, progMem (c6prog vs257) (3 * 256 + 1), 3 * 256 + 2 + 1, 256, false, progMem (c6prog vs257), pushedStack vs257 256 (fun _ => 0), []⟩
      (by norm_num) (by exact gpop) (by norm_num)
    rw [s3]
    show pushedStack vs257 256 (fun _ => 0) (256 - 1) = 0
    simp only [pushedStack]
    rw [if_pos (by norm_num)]
    decide
  · decide

/-- Claim C6, witness for the amended theorem: pushing 10 then 20 from
SP = 0, the first pop returns 20; a push at SP = 256 and a pop at
SP = 0 leave SP unchanged. -/
theorem claimC6_witness :
    (runN (2 * [10, 20].length + (0 + 1)) (c6start [10, 20] 3 4 (fun _ => 0))).reg_B = [10, 20].getD ([10, 20].length - 1 - 0) 0 ∧
    (step ⟨0, 5, 0, 256, false, fun a => if a = 0 then 0x01 else 0, fun _ => 0, []⟩).cpu.sp = 256 ∧
    (step ⟨0, 5, 0, 0, false, fun a => if a = 0 then 0x02 else 0, fun _ => 0, []⟩).cpu.sp = 0 :=
  ⟨claimC6_stack_lifo.1 [10, 20] 3 4 (fun _ => 0) (by decide) 0 (by decide),
   (claimC6_stack_lifo.2.1 ⟨0, 5, 0, 256, false, fun a => if a = 0 then 0x01 else 0, fun _ => 0, []⟩ (by decide) (by decide) (by decide)).1,
   (claimC6_stack_lifo.2.2 ⟨0, 5, 0, 0, false, fun a => if a = 0 then 0x02 else 0, fun _ => 0, []⟩ (by decide) (by decide) (by decide)).1⟩

/-- Claim C7: assembling the three-line source with a label produces
exactly the bytes 0x03 0x05 0x05 0x14 0x20 0x00, and the label `start`
resolves to address 0. -/
theorem claimC7_assemble_bytes :
    assemble ["start: LOAD_A 5", "STORE_A 20", "JMP start"] = [0x03, 0x05, 0x05, 0x14, 0x20, 0x00] ∧
    lookupA (asmLabels ["start: LOAD_A 5", "STORE_A 20", "JMP start"]) "start" = some 0 := by decide

/-- Claim C8: at an ADD_A_B opcode, A becomes (A + B) mod 256; at a
SUB_A_B opcode, A becomes (A - B) mod 256 with 8-bit wraparound; in both
cases B, SP, memory and the stack are unchanged and execution continues. -/
theorem claimC8_arith_wraparound (c : Cpu) (ha : c.reg_A < 256) (hb : c.reg_B < 256)
    (hpc : c.pc < 65536) :
    (c.memory c.pc = 0x10 →
      (step c).cpu.reg_A = (c.reg_A + c.reg_B) % 256 ∧
      (step c).cpu.reg_B = c.reg_B ∧ (step c).cpu.sp = c.sp ∧
      (step c).cpu.memory = c.memory ∧ (step c).cpu.stack = c.stack ∧ (step c).cont = true) ∧
    (c.memory c.pc = 0x11 →
      ((step c).cpu.reg_A : Int) = ((c.reg_A : Int) - (c.reg_B : Int)) % 256 ∧
      (step c).cpu.reg_B = c.reg_B ∧ (step c).cpu.sp = c.sp ∧
      (step c).cpu.memory = c.memory ∧ (step c).cpu.stack = c.stack ∧ (step c).cont = true) := by
  have hm : ¬ (c.pc ≥ memSize) := by simp [memSize]; omega
  constructor
  · intro hop
    unfold step
    rw [if_neg hm]
    simp only [hop]
    norm_num
  · intro hop
    unfold step
    rw [if_neg hm]
    simp only [hop]
    norm_num
    omega

/-- Claim C8, witness: A = 250, B = 10 gives A = 4 after ADD_A_B, and
A = 5, B = 10 gives A = 251 after SUB_A_B. -/
theorem claimC8_witness :
    (step ⟨250, 10, 0, 0, false, fun a => if a = 0 then 0x10 else 0, fun _ => 0, []⟩).cpu.reg_A = (250 + 10) % 256 ∧
    ((step ⟨5, 10, 0, 0, false, fun a => if a = 0 then 0x11 else 0, fun _ => 0, []⟩).cpu.reg_A : Int) = ((5 : Int) - 10) % 256 ∧
    (250 + 10) % 256 = 4 ∧ ((5 : Int) - 10) % 256 = 251 :=
  ⟨((claimC8_arith_wraparound _ (by decide) (by decide) (by decide)).1 (by decide)).1,
   ((claimC8_arith_wraparound _ (by decide) (by decide) (by decide)).2 (by decide)).1,
   by decide, by decide⟩

/-- Claim C9: the syscall handler leaves the privilege flag clear when
it returns, and a `step` from any state with the flag clear ends with
the flag clear again, whatever instruction executes. -/
theorem claimC9_privilege_flag (c : Cpu) (h : c.privileged = false) :
    (syscallHandler c).1.privileged = false ∧ (step c).cpu.privileged = false := by
  refine ⟨rfl, ?_⟩
  simp only [step, apply_ite (fun r : StepRes => r.cpu.privileged)]
  simp [h, syscallHandler, ite_self]

/-- Claim C9, witness at the freshly constructed machine. -/
theorem claimC9_witness :
    (syscallHandler initCpu).1.privileged = false ∧ (step initCpu).cpu.privileged = false :=
  claimC9_privilege_flag initCpu rfl

/-- Claim C10, counterexample to the claim as stated: compiling
`int a;` followed by `a = 3;` does read the last character of the empty
operator token (the semicolon stays attached to the operand token), so
the total embedding reaches the `none` case. -/
theorem claimC10_counterexample : (compile ["int a;", "a = 3;"]).isSome = false := by decide

/-- Claim C10 (amended): `compile` does reach the empty-string
`back()` call: the simple assignment `a = 3;` with the semicolon
attached to the operand leaves the operator token empty and line 386
reads its last character (undefined behaviour, `none`); writing the
semicolon as its own token (`a = 3 ;`) avoids the empty read and
compiles normally. -/
theorem claimC10_empty_token_back :
    compile ["int a;", "a = 3;"] = none ∧
    compile ["int a;", "a = 3 ;"] = some [0x03, 3, 0x05, 0x10, 0xFF] := by decide
